import Mathlib

/-!
Verification development for the Dye-Gradient-to-CSV pipeline
(`src/cpp/main.cpp`).  The C++ program groups image filenames by the
pattern `<identifier>_<rpm>_R<digit...>`, validates that each group has
exactly 3 replicate files, crops the 3 images of a group to a common
minimum width and height, computes per-column channel/luminance ratios
averaged over rows and over the 3 replicates, maps each column to a
physical distance, and writes one CSV per group.

The embedding below models strings as `List Char`, images as a rectangular
grid of rational-valued 3-channel pixels (real/float arithmetic is modelled
over `ℚ`), and the external decode/blur collaborators as function
parameters.
-/

namespace DyeCSV

/-- One pixel: the three channel samples in OpenCV order
(index 0 = blue, index 1 = green, index 2 = red), as in `cv::Vec3f`. -/
structure Pix where
  b : ℚ
  g : ℚ
  r : ℚ
deriving DecidableEq

def zeroPix : Pix := ⟨0, 0, 0⟩

/-- A `cv::Mat`-like image: explicit width and height plus row-major data. -/
structure Image where
  w : Nat
  h : Nat
  data : List (List Pix)
deriving DecidableEq

def emptyImage : Image := ⟨0, 0, []⟩

/-- Well-formedness of an image: the stored dimensions describe the data
(`data` has `h` rows, each of length `w`), as holds for every `cv::Mat`. -/
def WFImage (img : Image) : Prop :=
  img.data.length = img.h ∧ ∀ row ∈ img.data, row.length = img.w

instance (img : Image) : Decidable (WFImage img) := by
  unfold WFImage; infer_instance

/-- `std::stoi` on a digit string (decimal value of the digits). -/
def natOfDigits (ds : List Char) : Nat :=
  ds.foldl (fun n c => 10 * n + (c.toNat - 48)) 0

/-- One attempt of the regex `<identifier>_(\d+)_R\d+` anchored at the start
of the suffix `s` (from `extractUniqueRPMs`, main.cpp line 17).  The greedy
`(\d+)` necessarily captures the maximal digit run (a shorter run would put
a digit where the literal `_` must match), so a match at this position
exists iff `s` starts with `identifier`, `_`, a nonempty digit run, `_R`,
and one more digit; the captured key is the value of the digit run. -/
def matchKeyHere (id s : List Char) : Option Nat :=
  if s.take id.length = id then
    match s.drop id.length with
    | '_' :: rest =>
      let ds := rest.takeWhile Char.isDigit
      match rest.dropWhile Char.isDigit with
      | '_' :: 'R' :: d :: _ =>
        if 0 < ds.length ∧ d.isDigit = true then some (natOfDigits ds) else none
      | _ => none
    | _ => none
  else none

/-- `std::regex_search` with the pattern above: the leftmost position with a
match wins, and only that first match's capture is reported. -/
def searchKey (id : List Char) : List Char → Option Nat
  | [] => none
  | c :: rest =>
    match matchKeyHere id (c :: rest) with
    | some k => some k
    | none => searchKey id rest

/-- Insertion into a `std::set<int>`-like strictly-sorted list of keys. -/
def insertSorted (k : Nat) : List Nat → List Nat
  | [] => [k]
  | m :: rest =>
    if k < m then k :: m :: rest
    else if k = m then m :: rest
    else m :: insertSorted k rest

/-- `extractUniqueRPMs` (main.cpp lines 15-26): for each filename, run the
regex search; on a match insert the captured key into the set.  The result
is the ascending enumeration of the set, as `std::set<int>` iterates. -/
def extractUniqueRPMs (filenames : List (List Char)) (id : List Char) : List Nat :=
  filenames.foldl
    (fun acc f =>
      match searchKey id f with
      | some k => insertSorted k acc
      | none => acc)
    []

/-- `haystack.find(needle) != std::string::npos`. -/
def containsSub (needle : List Char) : List Char → Bool
  | [] => needle.isEmpty
  | c :: rest => (List.take needle.length (c :: rest) == needle) || containsSub needle rest

/-- The substring `<identifier>_<rpm>_R` used by both `validateReplicates`
(main.cpp line 33) and the loader in `processRPMImages` (line 99). -/
def replicatePat (id : List Char) (k : Nat) : List Char :=
  id ++ '_' :: (Nat.toDigits 10 k ++ ['_', 'R'])

def replicatePred (id : List Char) (k : Nat) (f : List Char) : Bool :=
  containsSub (replicatePat id k) f

/-- Number of filenames containing `<identifier>_<rpm>_R`, as counted by the
loop in `validateReplicates` (main.cpp lines 31-36). -/
def countReplicates (filenames : List (List Char)) (id : List Char) (k : Nat) : Nat :=
  (filenames.filter (fun f => replicatePred id k f)).length

/-- `validateReplicates` (main.cpp lines 29-43): true iff every extracted
key has exactly 3 matching filenames. -/
def validateReplicates (filenames : List (List Char)) (rpms : List Nat)
    (id : List Char) : Bool :=
  rpms.all (fun k => countReplicates filenames id k == 3)

/-- `INT_MAX`, the initial accumulator of the min-scans in
`alignImageWidths` / `alignImageHeights`. -/
def intMax : Nat := 2 ^ 31 - 1

def minColsOf (images : List Image) : Nat :=
  images.foldl (fun m img => min m img.w) intMax

def minRowsOf (images : List Image) : Nat :=
  images.foldl (fun m img => min m img.h) intMax

/-- `image(cv::Rect(0, 0, m, image.rows))`: keep the leftmost `m` columns. -/
def cropToWidth (img : Image) (m : Nat) : Image :=
  ⟨m, img.h, img.data.map (fun row => row.take m)⟩

/-- `image(cv::Rect(0, 0, image.cols, m))`: keep the topmost `m` rows. -/
def cropToHeight (img : Image) (m : Nat) : Image :=
  ⟨img.w, m, img.data.take m⟩

/-- `alignImageWidths` (main.cpp lines 57-70). -/
def alignImageWidths (images : List Image) : List Image :=
  images.map (fun img =>
    if minColsOf images < img.w then cropToWidth img (minColsOf images) else img)

/-- `alignImageHeights` (main.cpp lines 73-86). -/
def alignImageHeights (images : List Image) : List Image :=
  images.map (fun img =>
    if minRowsOf images < img.h then cropToHeight img (minRowsOf images) else img)

/-- The channel selector `channelChoice` after `main`'s validation. -/
inductive Channel
  | R
  | G
  | B
deriving DecidableEq

/-- The `switch (channelChoice)` at main.cpp lines 217-221. -/
def selectedColor (c : Channel) (p : Pix) : ℚ :=
  match c with
  | .R => p.r
  | .G => p.g
  | .B => p.b

/-- `luminance = red + green + blue` (main.cpp line 213). -/
def lumOf (p : Pix) : ℚ := p.r + p.g + p.b

/-- `(luminance > 0) ? selectedColor / luminance : 0.0f` (main.cpp line 223). -/
def ratioOfPix (c : Channel) (p : Pix) : ℚ :=
  if 0 < lumOf p then selectedColor c p / lumOf p else 0

/-- `image.at<cv::Vec3f>(y, x)`. -/
def pixAt (img : Image) (y x : Nat) : Pix :=
  (img.data.getD y []).getD x zeroPix

/-- The inner loop of the profiler (main.cpp lines 203-224): accumulate the
per-pixel ratio over rows `y = 0 .. rows-1` of column `x`. -/
def totalColor (img : Image) (c : Channel) (x rows : Nat) : ℚ :=
  (List.range rows).foldl (fun acc y => acc + ratioOfPix c (pixAt img y x)) 0

/-- `averageColor = totalColor / rows` (main.cpp line 226). -/
def averageColor (img : Image) (c : Channel) (x rows : Nat) : ℚ :=
  totalColor img c x rows / (rows : ℚ)

/-- One line of the CSV body: the distance field, the three per-replicate
fields in the order written, and the trailing average field. -/
structure CsvRow where
  dist : ℚ
  vals : List ℚ
  avg : ℚ
deriving DecidableEq

def rowDefault : CsvRow := ⟨0, [], 0⟩

/-- `distanceUpper - x * pixelWidth` with
`pixelWidth = (distanceUpper - distanceLower) / cols` (main.cpp 197, 200). -/
def distanceAt (dU dL : ℚ) (cols x : Nat) : ℚ :=
  dU - (x : ℚ) * ((dU - dL) / (cols : ℚ))

/-- The body of the `for (int x ...)` loop (main.cpp lines 199-233) for one
column `x`: the distance, one `averageColor` per image in load order, and
`averageColorGroup / images.size()`. -/
def profileRow (images : List Image) (c : Channel) (dU dL : ℚ)
    (cols rows x : Nat) : CsvRow :=
  { dist := distanceAt dU dL cols x
    vals := images.map (fun img => averageColor img c x rows)
    avg := (images.foldl (fun acc img => acc + averageColor img c x rows) 0)
      / (images.length : ℚ) }

/-- All CSV body rows of one group: `cols = images[0].cols`,
`rows = images[0].rows` (main.cpp lines 195-196), one row per column. -/
def profileRows (images : List Image) (c : Channel) (dU dL : ℚ) : List CsvRow :=
  (List.range (images.headD emptyImage).w).map
    (profileRow images c dU dL (images.headD emptyImage).w (images.headD emptyImage).h)

/-- The loader loop of `processRPMImages` (main.cpp lines 98-115): keep the
filenames containing `<identifier>_<rpm>_R`, decode each (a failed decode is
skipped), and blur exactly when `blurRadius > 0`.  `decode` and `blur` stand
for the external `cv::imread` / `cv::GaussianBlur` collaborators. -/
def loadGroup (decode : List Char → Option Image) (blur : Image → Image)
    (blurRadius : Nat) (filenames : List (List Char)) (id : List Char) (k : Nat) :
    List Image :=
  ((filenames.filter (fun f => replicatePred id k f)).filterMap decode).map
    (fun img => if 0 < blurRadius then blur img else img)

def channelName : Channel → List Char
  | .R => "Redness".data
  | .G => "Greenness".data
  | .B => "Blueness".data

def channelChar : Channel → Char
  | .R => 'R'
  | .G => 'G'
  | .B => 'B'

/-- The CSV header line (main.cpp lines 192-193), without the newline. -/
def csvHeader (c : Channel) : List Char :=
  "Distance (cm),".data ++ channelName c ++ " R1,".data ++ channelName c
    ++ " R2,".data ++ channelName c ++ " R3,Average ".data ++ channelName c

/-- The output filename of the aligned image at position `i` (0-based) of
the group (main.cpp lines 145-148): the replicate tag is `R` followed by
`i + 1`, and the dimensions are the aligned ones. -/
def savedImageName (outputFolder id : List Char) (k i : Nat) (img : Image) :
    List Char :=
  outputFolder ++ "/aligned_images/".data ++ id ++ "_".data ++ Nat.toDigits 10 k
    ++ "_R".data ++ Nat.toDigits 10 (i + 1) ++ "_".data ++ Nat.toDigits 10 img.w
    ++ "x".data ++ Nat.toDigits 10 img.h ++ "_aligned.tif".data

/-- The save loop (main.cpp lines 130-166) names the images by their
position in the aligned (= load-order) list. -/
def buildSavedNames (outputFolder id : List Char) (k : Nat)
    (imgs : List Image) : List (List Char) :=
  imgs.enum.map (fun p => savedImageName outputFolder id k p.1 p.2)

/-- The artifacts one successful group produces: the aligned-image
filenames, the CSV path, the CSV header and the CSV body rows. -/
structure GroupOutput where
  savedNames : List (List Char)
  csvName : List Char
  header : List Char
  rowsOut : List CsvRow
deriving DecidableEq

/-- `processRPMImages` (main.cpp lines 89-238): load the group's files; if
the loaded count is not 3, report and return with no output (`none`);
otherwise align widths then heights, save the aligned images, and emit the
CSV. -/
def processRPMImages (decode : List Char → Option Image) (blur : Image → Image)
    (filenames : List (List Char)) (outputFolder id : List Char) (k : Nat)
    (dU dL : ℚ) (c : Channel) (blurRadius : Nat) : Option GroupOutput :=
  if (loadGroup decode blur blurRadius filenames id k).length = 3 then
    some { savedNames := buildSavedNames outputFolder id k
             (alignImageHeights (alignImageWidths (loadGroup decode blur blurRadius filenames id k)))
           csvName := outputFolder ++ "/".data ++ id ++ "_".data
             ++ Nat.toDigits 10 k ++ "_".data ++ [channelChar c]
             ++ "ness.csv".data
           header := csvHeader c
           rowsOut := profileRows
             (alignImageHeights (alignImageWidths (loadGroup decode blur blurRadius filenames id k)))
             c dU dL }
  else none

/-- The log filename built by `initializeLogging` (main.cpp lines 276-281):
the only place the wall-clock timestamp enters any artifact name. -/
def logFileName (id timestamp : List Char) : List Char :=
  "logs/".data ++ id ++ "_log_".data ++ timestamp ++ ".txt".data

/-- What one run leaves behind: the timestamped log filename and, unless
validation aborted the run (`none`), one entry per extracted key in
iteration order, pairing the key with its group's outcome. -/
structure RunOutput where
  logName : List Char
  result : Option (List (Nat × Option GroupOutput))

/-- `main` (main.cpp lines 289-392) after the interactive configuration:
extract the unique keys, abort if validation fails, otherwise process every
key in ascending order. -/
def runPipeline (decode : List Char → Option Image) (blur : Image → Image)
    (filenames : List (List Char)) (outputFolder id : List Char)
    (dU dL : ℚ) (c : Channel) (blurRadius : Nat) (timestamp : List Char) :
    RunOutput :=
  if validateReplicates filenames (extractUniqueRPMs filenames id) id then
    ⟨logFileName id timestamp,
     some ((extractUniqueRPMs filenames id).map (fun k =>
       (k, processRPMImages decode blur filenames outputFolder id k dU dL c blurRadius)))⟩
  else
    ⟨logFileName id timestamp, none⟩

/-- Modelled from the spec: "at least one filename contains a substring
matching `<identifier>_<k>_R<digits>`" (§8, first testable property) — the
claim-side matching predicate of C6, to be compared with the code-side
`extractUniqueRPMs`.  True iff at some position the filename carries
`<identifier>`, `_`, the decimal digits of `k`, `_R`, and a digit. -/
def specKeyHere (id : List Char) (k : Nat) (s : List Char) : Bool :=
  (List.take (replicatePat id k).length s == replicatePat id k)
    && (match List.drop (replicatePat id k).length s with
        | d :: _ => d.isDigit
        | [] => false)

def specHasKey (id : List Char) (k : Nat) : List Char → Bool
  | [] => false
  | c :: rest => specKeyHere id k (c :: rest) || specHasKey id k rest

/-- A concrete `w × h` test image whose pixels are all `(1,1,1)`. -/
def mkImage (w h : Nat) : Image :=
  ⟨w, h, List.replicate h (List.replicate w ⟨1, 1, 1⟩)⟩

/-- Top-left `W × H` sub-rectangle of an image, as the spec describes the
Aligner's output (§3 AlignedGroup). -/
def topLeftCrop (img : Image) (W H : Nat) : Image :=
  ⟨W, H, (img.data.take H).map (fun row => row.take W)⟩

/-! ## Helper lemmas -/

lemma foldl_add_map {α : Type} (f : α → ℚ) (l : List α) :
    ∀ a : ℚ, l.foldl (fun acc y => acc + f y) a = a + (l.map f).sum := by
  induction l with
  | nil => intro a; simp
  | cons x t ih =>
    intro a
    simp only [List.foldl_cons, List.map_cons, List.sum_cons, ih]
    ring

lemma totalColor_eq (img : Image) (c : Channel) (x rows : Nat) :
    totalColor img c x rows
      = ((List.range rows).map (fun y => ratioOfPix c (pixAt img y x))).sum := by
  unfold totalColor
  rw [foldl_add_map]
  simp

lemma averageColor_eq (img : Image) (c : Channel) (x rows : Nat) :
    averageColor img c x rows
      = ((List.range rows).map (fun y => ratioOfPix c (pixAt img y x))).sum
          / (rows : ℚ) := by
  unfold averageColor
  rw [totalColor_eq]

lemma profileRows_getD (images : List Image) (c : Channel) (dU dL : ℚ) (x : Nat)
    (hx : x < (images.headD emptyImage).w) :
    (profileRows images c dU dL).getD x rowDefault
      = profileRow images c dU dL (images.headD emptyImage).w
          (images.headD emptyImage).h x := by
  unfold profileRows
  rw [List.getD_eq_getElem _ _ (by simpa using hx)]
  simp

lemma profileRow_avg (images : List Image) (c : Channel) (dU dL : ℚ)
    (cols rows x : Nat) :
    (profileRow images c dU dL cols rows x).avg
      = (profileRow images c dU dL cols rows x).vals.sum
          / (images.length : ℚ) := by
  unfold profileRow
  simp only []
  rw [foldl_add_map]
  simp

/-! ## Claims -/

/-- Claim C7: the profiler divides `selected / luminance` only when
`luminance > 0`; a pixel whose samples are all `0` contributes exactly `0`
to its column sum, and the per-image column value always divides by the row
count `rows`, never by a count of non-zero-luminance pixels, so the
profiler is total over all pixel values. -/
theorem claim7_guarded_division :
    (∀ (c : Channel) (p : Pix), lumOf p ≤ 0 → ratioOfPix c p = 0)
    ∧ (∀ c : Channel, ratioOfPix c zeroPix = 0)
    ∧ (∀ (img : Image) (c : Channel) (x rows : Nat),
        averageColor img c x rows
          = ((List.range rows).map (fun y => ratioOfPix c (pixAt img y x))).sum
              / (rows : ℚ)) := by
  refine ⟨?_, ?_, averageColor_eq⟩
  · intro c p hle
    unfold ratioOfPix
    rw [if_neg (not_lt.2 hle)]
  · intro c
    unfold ratioOfPix lumOf zeroPix
    norm_num

/-- Witness for C7 at the all-zero pixel. -/
theorem claim7_guarded_division_witness :
    lumOf zeroPix ≤ 0 ∧ ratioOfPix Channel.B zeroPix = 0 :=
  ⟨by norm_num [lumOf, zeroPix],
   claim7_guarded_division.1 Channel.B zeroPix (by norm_num [lumOf, zeroPix])⟩

/-- Claim C2: the distance written for column `x` equals
`distanceUpper - x * (distanceUpper - distanceLower) / W`; column `0` maps
exactly to `distanceUpper`; with `0 < W` and `distanceLower < distanceUpper`
the last column `W - 1` maps strictly above `distanceLower`; and with
`distanceUpper = 10`, `distanceLower = 0`, `W = 5`, column `0` maps to `10`
and column `4` maps to `2`. -/
theorem claim2_distance_mapping :
    (∀ (images : List Image) (c : Channel) (dU dL : ℚ) (x : Nat),
        x < (images.headD emptyImage).w →
        ((profileRows images c dU dL).getD x rowDefault).dist
          = dU - (x : ℚ) * ((dU - dL) / (((images.headD emptyImage).w : Nat) : ℚ)))
    ∧ (∀ (dU dL : ℚ) (W : Nat), distanceAt dU dL W 0 = dU)
    ∧ (∀ (dU dL : ℚ) (W : Nat), 0 < W → dL < dU →
        dL < distanceAt dU dL W (W - 1))
    ∧ distanceAt 10 0 5 0 = 10 ∧ distanceAt 10 0 5 4 = 2 := by
  refine ⟨?_, ?_, ?_, ?_, ?_⟩
  · intro images c dU dL x hx
    rw [profileRows_getD images c dU dL x hx]
    rfl
  · intro dU dL W
    unfold distanceAt
    push_cast
    ring
  · intro dU dL W hW hlt
    have hWq : (0 : ℚ) < (W : ℚ) := by exact_mod_cast hW
    have hcast : (((W - 1 : Nat)) : ℚ) = (W : ℚ) - 1 := by
      have h1 : 1 ≤ W := hW
      push_cast [h1]
      ring
    unfold distanceAt
    rw [hcast]
    have key : dU - ((W : ℚ) - 1) * ((dU - dL) / (W : ℚ)) - dL
        = (dU - dL) / (W : ℚ) := by
      field_simp
      ring
    have hpos : (0 : ℚ) < (dU - dL) / (W : ℚ) :=
      div_pos (sub_pos.2 hlt) hWq
    linarith
  · unfold distanceAt; norm_num
  · unfold distanceAt; norm_num

/-- Witness for C2 at the spec's example `distanceUpper = 10`,
`distanceLower = 0`, `W = 5`. -/
theorem claim2_distance_mapping_witness :
    ((profileRows [mkImage 5 1, mkImage 5 1, mkImage 5 1] Channel.R 10 0).getD 4
        rowDefault).dist
      = 10 - (4 : ℚ) * ((10 - 0) /
          ((([mkImage 5 1, mkImage 5 1, mkImage 5 1].headD emptyImage).w : Nat) : ℚ))
    ∧ (0 : ℚ) < distanceAt 10 0 5 (5 - 1) := by
  constructor
  · exact claim2_distance_mapping.1 [mkImage 5 1, mkImage 5 1, mkImage 5 1]
      Channel.R 10 0 4 (by decide)
  · exact claim2_distance_mapping.2.2.1 10 0 5 (by norm_num) (by norm_num)

/-- Claim C8: for fixed filenames, decoded contents (`decode`), blur
collaborator and configuration, the tabular output of the run is the same
whatever the timestamp — only the log filename carries the timestamp. -/
theorem claim8_deterministic_output :
    ∀ (decode : List Char → Option Image) (blur : Image → Image)
      (filenames : List (List Char)) (outputFolder id : List Char)
      (dU dL : ℚ) (c : Channel) (blurRadius : Nat) (t₁ t₂ : List Char),
      (runPipeline decode blur filenames outputFolder id dU dL c blurRadius t₁).result
        = (runPipeline decode blur filenames outputFolder id dU dL c blurRadius t₂).result := by
  intro decode blur filenames outputFolder id dU dL c blurRadius t₁ t₂
  unfold runPipeline
  by_cases hv : validateReplicates filenames (extractUniqueRPMs filenames id) id
  · simp [hv]
  · simp [hv]

lemma pixAt_mkImage (w h y x : Nat) (hy : y < h) (hx : x < w) :
    pixAt (mkImage w h) y x = ⟨1, 1, 1⟩ := by
  unfold pixAt mkImage
  have h1 : (List.replicate h (List.replicate w (⟨1, 1, 1⟩ : Pix))).getD y []
      = List.replicate w (⟨1, 1, 1⟩ : Pix) := by
    rw [List.getD_eq_getElem _ _ (by simpa using hy), List.getElem_replicate]
  rw [h1]
  rw [List.getD_eq_getElem _ _ (by simpa using hx), List.getElem_replicate]

lemma averageColor_mkImage_one (w : Nat) (c : Channel) (x : Nat) (hx : x < w) :
    averageColor (mkImage w 1) c x 1 = 1 / 3 := by
  rw [averageColor_eq]
  rw [show List.range 1 = [0] from rfl]
  simp only [List.map_cons, List.map_nil, List.sum_cons, List.sum_nil]
  rw [pixAt_mkImage w 1 0 x (by norm_num) hx]
  cases c <;> norm_num [ratioOfPix, lumOf, selectedColor]

/-- Claim C1: for an aligned group of 3 images of width `W` and height `H`,
the per-image value of column `x` is the arithmetic mean over the `H` rows
of the per-pixel ratio `selected / (c0 + c1 + c2)` — the sum divided by `H`
itself — and the row's averaged value is the arithmetic mean of the 3
per-image column values; in particular, for an `H = 1` group where every
pixel of all 3 images is `(1, 1, 1)`, every per-image column value and
every averaged value equals `1/3`. -/
theorem claim1_profiler_mean :
    (∀ (images : List Image) (c : Channel) (dU dL : ℚ) (W H x : Nat),
        images.length = 3 →
        (∀ img ∈ images, WFImage img ∧ img.w = W ∧ img.h = H) →
        x < W →
        ((profileRows images c dU dL).getD x rowDefault).vals
            = images.map (fun img =>
                ((List.range H).map
                  (fun y => ratioOfPix c (pixAt img y x))).sum / (H : ℚ))
          ∧ ((profileRows images c dU dL).getD x rowDefault).avg
            = ((profileRows images c dU dL).getD x rowDefault).vals.sum / 3)
    ∧ (∀ (w : Nat) (c : Channel) (dU dL : ℚ) (x : Nat), x < w →
        ((profileRows [mkImage w 1, mkImage w 1, mkImage w 1] c dU dL).getD x
            rowDefault).vals = [1 / 3, 1 / 3, 1 / 3]
          ∧ ((profileRows [mkImage w 1, mkImage w 1, mkImage w 1] c dU dL).getD x
            rowDefault).avg = 1 / 3) := by
  constructor
  · intro images c dU dL W H x hlen hWF hx
    obtain ⟨a, b, d, rfl⟩ := List.length_eq_three.1 hlen
    have ha := hWF a (by simp)
    have hx' : x < ([a, b, d].headD emptyImage).w := by
      simpa [ha.2.1] using hx
    rw [profileRows_getD _ _ _ _ _ hx']
    refine ⟨?_, ?_⟩
    · show ([a, b, d].map fun img =>
          averageColor img c x (([a, b, d].headD emptyImage).h)) = _
      simp only [List.headD_cons, ha.2.2]
      exact List.map_congr_left fun img _ => averageColor_eq img c x H
    · rw [profileRow_avg]
      norm_num
  · intro w c dU dL x hx
    have hx' : x < ([mkImage w 1, mkImage w 1, mkImage w 1].headD emptyImage).w := by
      simpa [mkImage] using hx
    rw [profileRows_getD _ _ _ _ _ hx']
    constructor
    · show ([mkImage w 1, mkImage w 1, mkImage w 1].map fun img =>
          averageColor img c x
            (([mkImage w 1, mkImage w 1, mkImage w 1].headD emptyImage).h)) = _
      simp only [List.headD_cons, List.map_cons, List.map_nil]
      rw [show (mkImage w 1).h = 1 from rfl]
      rw [averageColor_mkImage_one w c x hx]
    · rw [profileRow_avg]
      show (([mkImage w 1, mkImage w 1, mkImage w 1].map fun img =>
          averageColor img c x
            (([mkImage w 1, mkImage w 1, mkImage w 1].headD emptyImage).h)).sum)
          / _ = _
      simp only [List.headD_cons, List.map_cons, List.map_nil, List.sum_cons,
        List.sum_nil]
      rw [show (mkImage w 1).h = 1 from rfl]
      rw [averageColor_mkImage_one w c x hx]
      norm_num

/-- Witness for C1: the all-ones `H = 1` group at `W = 4`, column `2`. -/
theorem claim1_profiler_mean_witness :
    ((profileRows [mkImage 4 1, mkImage 4 1, mkImage 4 1] Channel.G 10 0).getD 2
        rowDefault).vals = [1 / 3, 1 / 3, 1 / 3]
      ∧ ((profileRows [mkImage 4 1, mkImage 4 1, mkImage 4 1] Channel.G 10 0).getD 2
        rowDefault).avg = 1 / 3 :=
  claim1_profiler_mean.2 4 Channel.G 10 0 2 (by norm_num)

lemma take_rows_of_WF (d : List (List Pix)) (w : Nat)
    (hrow : ∀ r ∈ d, r.length = w) : d.map (fun r => r.take w) = d := by
  induction d with
  | nil => rfl
  | cons r t ih =>
    simp only [List.map_cons]
    rw [ih (fun r hr => hrow r (List.mem_cons_of_mem _ hr))]
    have hr : r.length = w := hrow r (List.mem_cons_self _ _)
    rw [← hr, List.take_length]

lemma align_width_step (img : Image) (W : Nat) (hWF : WFImage img)
    (hle : W ≤ img.w) :
    (if W < img.w then cropToWidth img W else img) = cropToWidth img W := by
  by_cases h : W < img.w
  · rw [if_pos h]
  · rw [if_neg h]
    have heq : img.w = W := le_antisymm (not_lt.1 h) hle
    have hdata : img.data.map (fun r => r.take W) = img.data := by
      rw [← heq]
      exact take_rows_of_WF img.data img.w hWF.2
    cases img with
    | mk iw ih d =>
      simp only [cropToWidth]
      simp only at heq hdata
      rw [heq, hdata]

lemma align_height_step (img : Image) (H : Nat) (hWF : WFImage img)
    (hle : H ≤ img.h) :
    (if H < img.h then cropToHeight img H else img) = cropToHeight img H := by
  by_cases h : H < img.h
  · rw [if_pos h]
  · rw [if_neg h]
    have heq : img.h = H := le_antisymm (not_lt.1 h) hle
    have hdata : img.data.take H = img.data := by
      rw [← heq, ← hWF.1, List.take_length]
    cases img with
    | mk iw ih d =>
      simp only [cropToHeight]
      simp only at heq hdata
      rw [heq, hdata]

lemma WF_cropToWidth (img : Image) (W : Nat) (hWF : WFImage img)
    (hle : W ≤ img.w) : WFImage (cropToWidth img W) := by
  constructor
  · simpa [cropToWidth] using hWF.1
  · intro row hrow
    simp only [cropToWidth, List.mem_map] at hrow
    obtain ⟨r, hr, rfl⟩ := hrow
    simp only [cropToWidth]
    rw [List.length_take, hWF.2 r hr]
    exact min_eq_left hle

lemma crop_then_height (img : Image) (W H : Nat) :
    cropToHeight (cropToWidth img W) H = topLeftCrop img W H := by
  unfold cropToHeight cropToWidth topLeftCrop
  simp [List.map_take]

lemma WF_topLeftCrop (img : Image) (W H : Nat) (hWF : WFImage img)
    (hW : W ≤ img.w) (hH : H ≤ img.h) : WFImage (topLeftCrop img W H) := by
  constructor
  · simp only [topLeftCrop, List.length_map, List.length_take, hWF.1]
    exact min_eq_left hH
  · intro row hrow
    simp only [topLeftCrop, List.mem_map] at hrow
    obtain ⟨r, hr, rfl⟩ := hrow
    have hrmem : r ∈ img.data := List.take_subset _ _ hr
    simp only [topLeftCrop]
    rw [List.length_take, hWF.2 r hrmem]
    exact min_eq_left hW

/-- Claim C3: for a group of 3 images, the Aligner yields 3 images that all
have width `W` = the minimum input width and height `H` = the minimum input
height, each equal to the top-left `W × H` sub-rectangle of its
corresponding input (the width/height bounds reflect that `cv::Mat`
dimensions are nonnegative `int`s, at most `INT_MAX`). -/
theorem claim3_aligner_crop (i1 i2 i3 : Image)
    (h1 : WFImage i1) (h2 : WFImage i2) (h3 : WFImage i3)
    (hw1 : i1.w ≤ intMax) (hh1 : i1.h ≤ intMax) :
    alignImageHeights (alignImageWidths [i1, i2, i3])
        = [topLeftCrop i1 (min i1.w (min i2.w i3.w)) (min i1.h (min i2.h i3.h)),
           topLeftCrop i2 (min i1.w (min i2.w i3.w)) (min i1.h (min i2.h i3.h)),
           topLeftCrop i3 (min i1.w (min i2.w i3.w)) (min i1.h (min i2.h i3.h))]
      ∧ ∀ img ∈ alignImageHeights (alignImageWidths [i1, i2, i3]),
          img.w = min i1.w (min i2.w i3.w) ∧ img.h = min i1.h (min i2.h i3.h)
            ∧ WFImage img := by
  have hminC : minColsOf [i1, i2, i3] = min i1.w (min i2.w i3.w) := by
    unfold minColsOf
    simp only [List.foldl_cons, List.foldl_nil]
    rw [min_eq_right hw1, min_assoc]
  have hW1 : min i1.w (min i2.w i3.w) ≤ i1.w := min_le_left _ _
  have hW2 : min i1.w (min i2.w i3.w) ≤ i2.w :=
    (min_le_right _ _).trans (min_le_left _ _)
  have hW3 : min i1.w (min i2.w i3.w) ≤ i3.w :=
    (min_le_right _ _).trans (min_le_right _ _)
  have hH1 : min i1.h (min i2.h i3.h) ≤ i1.h := min_le_left _ _
  have hH2 : min i1.h (min i2.h i3.h) ≤ i2.h :=
    (min_le_right _ _).trans (min_le_left _ _)
  have hH3 : min i1.h (min i2.h i3.h) ≤ i3.h :=
    (min_le_right _ _).trans (min_le_right _ _)
  have hAW : alignImageWidths [i1, i2, i3]
      = [cropToWidth i1 (min i1.w (min i2.w i3.w)),
         cropToWidth i2 (min i1.w (min i2.w i3.w)),
         cropToWidth i3 (min i1.w (min i2.w i3.w))] := by
    unfold alignImageWidths
    rw [hminC]
    simp only [List.map_cons, List.map_nil]
    rw [align_width_step i1 _ h1 hW1, align_width_step i2 _ h2 hW2,
        align_width_step i3 _ h3 hW3]
  have hminR : minRowsOf [cropToWidth i1 (min i1.w (min i2.w i3.w)),
      cropToWidth i2 (min i1.w (min i2.w i3.w)),
      cropToWidth i3 (min i1.w (min i2.w i3.w))]
      = min i1.h (min i2.h i3.h) := by
    unfold minRowsOf cropToWidth
    simp only [List.foldl_cons, List.foldl_nil]
    rw [min_eq_right hh1, min_assoc]
  have hmain : alignImageHeights (alignImageWidths [i1, i2, i3])
      = [topLeftCrop i1 (min i1.w (min i2.w i3.w)) (min i1.h (min i2.h i3.h)),
         topLeftCrop i2 (min i1.w (min i2.w i3.w)) (min i1.h (min i2.h i3.h)),
         topLeftCrop i3 (min i1.w (min i2.w i3.w)) (min i1.h (min i2.h i3.h))] := by
    rw [hAW]
    unfold alignImageHeights
    rw [hminR]
    simp only [List.map_cons, List.map_nil]
    rw [align_height_step _ _ (WF_cropToWidth i1 _ h1 hW1) hH1,
        align_height_step _ _ (WF_cropToWidth i2 _ h2 hW2) hH2,
        align_height_step _ _ (WF_cropToWidth i3 _ h3 hW3) hH3,
        crop_then_height, crop_then_height, crop_then_height]
  refine ⟨hmain, ?_⟩
  rw [hmain]
  intro img hmem
  simp only [List.mem_cons, List.not_mem_nil, or_false] at hmem
  rcases hmem with rfl | rfl | rfl
  · exact ⟨rfl, rfl, WF_topLeftCrop i1 _ _ h1 hW1 hH1⟩
  · exact ⟨rfl, rfl, WF_topLeftCrop i2 _ _ h2 hW2 hH2⟩
  · exact ⟨rfl, rfl, WF_topLeftCrop i3 _ _ h3 hW3 hH3⟩

lemma WF_mkImage (w h : Nat) : WFImage (mkImage w h) := by
  constructor
  · simp [mkImage]
  · intro row hrow
    simp only [mkImage, List.mem_replicate] at hrow
    rw [hrow.2]
    simp [mkImage]

/-- Witness for C3 at the spec's example sizes `{100, 120, 90}` widths and
`{50, 60, 55}` heights: the result is three `90 × 50` top-left crops. -/
theorem claim3_aligner_crop_witness :
    alignImageHeights (alignImageWidths
        [mkImage 100 50, mkImage 120 60, mkImage 90 55])
      = [topLeftCrop (mkImage 100 50) 90 50, topLeftCrop (mkImage 120 60) 90 50,
         topLeftCrop (mkImage 90 55) 90 50] := by
  have h := (claim3_aligner_crop (mkImage 100 50) (mkImage 120 60) (mkImage 90 55)
    (WF_mkImage 100 50) (WF_mkImage 120 60) (WF_mkImage 90 55)
    (by norm_num [mkImage, intMax]) (by norm_num [mkImage, intMax])).1
  have e1 : min (mkImage 100 50).w (min (mkImage 120 60).w (mkImage 90 55).w) = 90 := by
    norm_num [mkImage]
  have e2 : min (mkImage 100 50).h (min (mkImage 120 60).h (mkImage 90 55).h) = 50 := by
    norm_num [mkImage]
  rw [e1, e2] at h
  exact h

/-- Claim C4: if any extracted group key's count of filenames containing
`<identifier>_<key>_R` differs from 3, the whole run aborts (`result = none`)
— no group at all, valid ones included, is processed. -/
theorem claim4_validation_aborts
    (decode : List Char → Option Image) (blur : Image → Image)
    (filenames : List (List Char)) (outputFolder id : List Char)
    (dU dL : ℚ) (c : Channel) (blurRadius : Nat) (timestamp : List Char)
    (k : Nat)
    (hk : k ∈ extractUniqueRPMs filenames id)
    (hcount : countReplicates filenames id k ≠ 3) :
    (runPipeline decode blur filenames outputFolder id dU dL c blurRadius
      timestamp).result = none := by
  have hv : validateReplicates filenames (extractUniqueRPMs filenames id) id
      = false := by
    rw [Bool.eq_false_iff]
    intro hall
    rw [validateReplicates, List.all_eq_true] at hall
    have hbeq := hall k hk
    simp only [beq_iff_eq] at hbeq
    exact hcount hbeq
  unfold runPipeline
  simp [hv]

def fnamesTwo : List (List Char) := ["W_5_R1".data, "W_5_R2".data]

/-- Witness for C4: key 5 has only 2 matching filenames, so the run aborts. -/
theorem claim4_validation_aborts_witness :
    (runPipeline (fun _ => none) (fun img => img) fnamesTwo [] "W".data
      10 0 Channel.R 0 []).result = none :=
  claim4_validation_aborts (fun _ => none) (fun img => img) fnamesTwo []
    "W".data 10 0 Channel.R 0 [] 5 (by decide) (by decide)

/-- Claim C5: a group whose loaded image count is not 3 is skipped — it
produces no aligned-image, CSV-name, header or row output at all — and the
skip is local: any other group's output depends only on the decode results
of its own matching files, so one group's failure cannot change another
group's output. -/
theorem claim5_group_skip_local :
    (∀ (decode : List Char → Option Image) (blur : Image → Image)
        (filenames : List (List Char)) (outputFolder id : List Char) (k : Nat)
        (dU dL : ℚ) (c : Channel) (blurRadius : Nat),
        (loadGroup decode blur blurRadius filenames id k).length ≠ 3 →
        processRPMImages decode blur filenames outputFolder id k dU dL c blurRadius
          = none)
    ∧ (∀ (decode₁ decode₂ : List Char → Option Image) (blur : Image → Image)
        (filenames : List (List Char)) (outputFolder id : List Char) (k : Nat)
        (dU dL : ℚ) (c : Channel) (blurRadius : Nat),
        (∀ f ∈ filenames, replicatePred id k f = true → decode₁ f = decode₂ f) →
        processRPMImages decode₁ blur filenames outputFolder id k dU dL c blurRadius
          = processRPMImages decode₂ blur filenames outputFolder id k dU dL c
              blurRadius) := by
  constructor
  · intro decode blur filenames outputFolder id k dU dL c blurRadius hne
    unfold processRPMImages
    rw [if_neg hne]
  · intro d₁ d₂ blur filenames outputFolder id k dU dL c blurRadius hagree
    have hload : loadGroup d₁ blur blurRadius filenames id k
        = loadGroup d₂ blur blurRadius filenames id k := by
      unfold loadGroup
      congr 1
      apply List.filterMap_congr
      intro f hf
      exact hagree f (List.mem_of_mem_filter hf) (List.of_mem_filter hf)
    unfold processRPMImages
    rw [hload]

def decodeDrop5 : List Char → Option Image :=
  fun f => if replicatePred "W".data 5 f then none else some (mkImage 1 1)

/-- Witness for C5: with every decode failing, group 5's processing yields
no output; and two decoders agreeing on group 5's files give group 5
identical outcomes. -/
theorem claim5_group_skip_local_witness :
    processRPMImages (fun _ => none) (fun img => img) fnamesTwo [] "W".data 5
        10 0 Channel.R 0 = none
    ∧ processRPMImages (fun _ => none) (fun img => img) fnamesTwo [] "W".data 5
        10 0 Channel.R 0
      = processRPMImages decodeDrop5 (fun img => img) fnamesTwo [] "W".data 5
        10 0 Channel.R 0 := by
  constructor
  · exact claim5_group_skip_local.1 (fun _ => none) (fun img => img) fnamesTwo
      [] "W".data 5 10 0 Channel.R 0 (by decide)
  · exact claim5_group_skip_local.2 (fun _ => none) decodeDrop5 (fun img => img)
      fnamesTwo [] "W".data 5 10 0 Channel.R 0 (by decide)

lemma length_filterMap_of_isSome {α β : Type} (f : α → Option β) (l : List α)
    (h : ∀ a ∈ l, (f a).isSome) : (l.filterMap f).length = l.length := by
  induction l with
  | nil => rfl
  | cons a t ih =>
    have ha := h a (List.mem_cons_self _ _)
    rw [List.filterMap_cons]
    cases hfa : f a with
    | none => rw [hfa] at ha; simp at ha
    | some b =>
      simp only [List.length_cons]
      rw [ih (fun x hx => h x (List.mem_cons_of_mem _ hx))]

/-- Claim C9: the loader of `processRPMImages` selects files by the very
substring predicate that `validateReplicates` counts, so once validation
passes, exactly 3 files are attempted for each extracted key, and whenever
every one of them decodes, the group is not skipped — the skip branch is
reachable only through a decode failure. -/
theorem claim9_loader_matches_validator :
    ∀ (filenames : List (List Char)) (id : List Char) (k : Nat)
      (decode : List Char → Option Image) (blur : Image → Image)
      (blurRadius : Nat) (outputFolder : List Char) (dU dL : ℚ) (c : Channel),
      validateReplicates filenames (extractUniqueRPMs filenames id) id = true →
      k ∈ extractUniqueRPMs filenames id →
      (filenames.filter (fun f => replicatePred id k f)).length = 3
      ∧ ((∀ f ∈ filenames.filter (fun f => replicatePred id k f),
            (decode f).isSome) →
          (loadGroup decode blur blurRadius filenames id k).length = 3
          ∧ processRPMImages decode blur filenames outputFolder id k dU dL c
              blurRadius ≠ none) := by
  intro filenames id k decode blur blurRadius outputFolder dU dL c hval hk
  have hcount : (filenames.filter (fun f => replicatePred id k f)).length = 3 := by
    rw [validateReplicates, List.all_eq_true] at hval
    have hbeq := hval k hk
    simpa [countReplicates] using hbeq
  refine ⟨hcount, fun hsome => ?_⟩
  have hlen : (loadGroup decode blur blurRadius filenames id k).length = 3 := by
    unfold loadGroup
    rw [List.length_map, length_filterMap_of_isSome _ _ hsome, hcount]
  refine ⟨hlen, ?_⟩
  unfold processRPMImages
  rw [if_pos hlen]
  simp

def fnamesThree : List (List Char) :=
  ["W_5_R1".data, "W_5_R2".data, "W_5_R3".data]

/-- Witness for C9: three matching files, all decoding, so group 5 is
attempted with exactly 3 files and not skipped. -/
theorem claim9_loader_matches_validator_witness :
    (fnamesThree.filter (fun f => replicatePred "W".data 5 f)).length = 3
    ∧ processRPMImages (fun _ => some (mkImage 2 2)) (fun img => img)
        fnamesThree [] "W".data 5 10 0 Channel.R 0 ≠ none := by
  have h := claim9_loader_matches_validator fnamesThree "W".data 5
    (fun _ => some (mkImage 2 2)) (fun img => img) 0 [] 10 0 Channel.R
    (by decide) (by decide)
  exact ⟨h.1, (h.2 (by decide)).2⟩

lemma mem_insertSorted (a k : Nat) :
    ∀ l : List Nat, a ∈ insertSorted k l ↔ a = k ∨ a ∈ l := by
  intro l
  induction l with
  | nil => simp [insertSorted]
  | cons m t ih =>
    unfold insertSorted
    by_cases h1 : k < m
    · simp only [if_pos h1, List.mem_cons]
    · by_cases h2 : k = m
      · subst h2
        rw [if_neg h1, if_pos rfl]
        simp only [List.mem_cons]
        tauto
      · simp only [if_neg h1, if_neg h2, List.mem_cons, ih]
        tauto

lemma sorted_insertSorted (k : Nat) :
    ∀ l : List Nat, l.Sorted (· < ·) → (insertSorted k l).Sorted (· < ·) := by
  intro l
  induction l with
  | nil => intro; simp [insertSorted]
  | cons m t ih =>
    intro hs
    rw [List.sorted_cons] at hs
    obtain ⟨hm, ht⟩ := hs
    unfold insertSorted
    by_cases h1 : k < m
    · rw [if_pos h1, List.sorted_cons]
      refine ⟨?_, ?_⟩
      · intro b hb
        rcases List.mem_cons.1 hb with rfl | hb'
        · exact h1
        · exact h1.trans (hm b hb')
      · rw [List.sorted_cons]
        exact ⟨hm, ht⟩
    · by_cases h2 : k = m
      · rw [if_neg h1, if_pos h2, List.sorted_cons]
        exact ⟨hm, ht⟩
      · rw [if_neg h1, if_neg h2, List.sorted_cons]
        refine ⟨?_, ih ht⟩
        intro b hb
        rcases (mem_insertSorted b k t).1 hb with rfl | hb'
        · omega
        · exact hm b hb'

lemma mem_extract_aux (id : List Char) :
    ∀ (fns : List (List Char)) (acc : List Nat) (k : Nat),
      (k ∈ fns.foldl (fun acc f =>
          match searchKey id f with
          | some k' => insertSorted k' acc
          | none => acc) acc)
      ↔ ((∃ f ∈ fns, searchKey id f = some k) ∨ k ∈ acc) := by
  intro fns
  induction fns with
  | nil => intro acc k; simp
  | cons f t ih =>
    intro acc k
    simp only [List.foldl_cons]
    cases hf : searchKey id f with
    | none =>
      simp only [hf]
      rw [ih]
      constructor
      · rintro (⟨g, hg, hgk⟩ | hacc)
        · exact Or.inl ⟨g, List.mem_cons_of_mem _ hg, hgk⟩
        · exact Or.inr hacc
      · rintro (⟨g, hg, hgk⟩ | hacc)
        · rcases List.mem_cons.1 hg with rfl | hg'
          · rw [hf] at hgk; cases hgk
          · exact Or.inl ⟨g, hg', hgk⟩
        · exact Or.inr hacc
    | some k' =>
      simp only [hf]
      rw [ih]
      rw [mem_insertSorted]
      constructor
      · rintro (⟨g, hg, hgk⟩ | rfl | hacc)
        · exact Or.inl ⟨g, List.mem_cons_of_mem _ hg, hgk⟩
        · exact Or.inl ⟨f, List.mem_cons_self _ _, hf⟩
        · exact Or.inr hacc
      · rintro (⟨g, hg, hgk⟩ | hacc)
        · rcases List.mem_cons.1 hg with rfl | hg'
          · rw [hf] at hgk
            exact Or.inr (Or.inl (Option.some.inj hgk).symm)
          · exact Or.inl ⟨g, hg', hgk⟩
        · exact Or.inr (Or.inr hacc)

lemma sorted_extract_aux (id : List Char) :
    ∀ (fns : List (List Char)) (acc : List Nat), acc.Sorted (· < ·) →
      (fns.foldl (fun acc f =>
          match searchKey id f with
          | some k' => insertSorted k' acc
          | none => acc) acc).Sorted (· < ·) := by
  intro fns
  induction fns with
  | nil => intro acc hacc; exact hacc
  | cons f t ih =>
    intro acc hacc
    simp only [List.foldl_cons]
    cases hf : searchKey id f with
    | none => simp only [hf]; exact ih acc hacc
    | some k' => simp only [hf]; exact ih _ (sorted_insertSorted k' acc hacc)

def fnameTwoKeys : List Char := "W_1_R1W_2_R2".data

/-- Claim C6 counterexample: the filename `W_1_R1W_2_R2` contains a
substring matching `W_2_R<digit>` (claim-side predicate `specHasKey`), yet
the Classifier does not return key 2 for it — `std::regex_search` only
reports the leftmost match of each filename, which here captures key 1. -/
theorem claim6_counterexample :
    specHasKey "W".data 2 fnameTwoKeys = true
    ∧ (2 ∈ extractUniqueRPMs [fnameTwoKeys] "W".data → False) := by
  constructor
  · decide
  · decide

/-- Claim C6 as amended: the Classifier returns a group key `k` iff at least
one filename's leftmost regex match of `<identifier>_(\d+)_R\d+` captures a
digit run of value `k` (only the first match of each filename counts);
duplicate matches collapse to one key; and the Run Orchestrator iterates the
keys in strictly ascending numeric order. -/
theorem claim6_classifier_amended :
    (∀ (filenames : List (List Char)) (id : List Char) (k : Nat),
        k ∈ extractUniqueRPMs filenames id
          ↔ ∃ f ∈ filenames, searchKey id f = some k)
    ∧ (∀ (filenames : List (List Char)) (id : List Char),
        (extractUniqueRPMs filenames id).Sorted (· < ·))
    ∧ (∀ (decode : List Char → Option Image) (blur : Image → Image)
        (filenames : List (List Char)) (outputFolder id : List Char)
        (dU dL : ℚ) (c : Channel) (blurRadius : Nat) (timestamp : List Char)
        (l : List (Nat × Option GroupOutput)),
        (runPipeline decode blur filenames outputFolder id dU dL c blurRadius
          timestamp).result = some l →
        l.map Prod.fst = extractUniqueRPMs filenames id) := by
  refine ⟨?_, ?_, ?_⟩
  · intro filenames id k
    unfold extractUniqueRPMs
    rw [mem_extract_aux]
    simp
  · intro filenames id
    exact sorted_extract_aux id filenames [] (by simp)
  · intro decode blur filenames outputFolder id dU dL c blurRadius timestamp l hl
    unfold runPipeline at hl
    by_cases hv : validateReplicates filenames (extractUniqueRPMs filenames id) id
    · rw [if_pos hv] at hl
      have hl' : some ((extractUniqueRPMs filenames id).map (fun k =>
          (k, processRPMImages decode blur filenames outputFolder id k dU dL c
            blurRadius))) = some l := hl
      rw [← Option.some.inj hl']
      rw [List.map_map]
      simp [Function.comp_def]
    · rw [if_neg hv] at hl
      cases hl

/-- Witness for C6 (amended): a valid three-replicate run over group key 5,
where the orchestrator's iteration order is exactly the extracted key list. -/
theorem claim6_classifier_amended_witness :
    (5 ∈ extractUniqueRPMs fnamesThree "W".data
      ↔ ∃ f ∈ fnamesThree, searchKey "W".data f = some 5)
    ∧ ([(5, (none : Option GroupOutput))].map Prod.fst
        = extractUniqueRPMs fnamesThree "W".data) := by
  refine ⟨claim6_classifier_amended.1 fnamesThree "W".data 5, ?_⟩
  exact claim6_classifier_amended.2.2 (fun _ => none) (fun img => img)
    fnamesThree [] "W".data 10 0 Channel.R 0 [] [(5, none)] (by decide)

/-- Claim C10: the replicate index in the aligned-image output filename and
the position of the per-replicate CSV column are both the 1-based position
of the image in load order — the `i`-th aligned image is saved under
`..._R<i+1>_<w>x<h>_aligned.tif` and its column average is the `i`-th CSV
value — and a successfully loaded group's output is built exactly from the
aligned load-order list. -/
theorem claim10_replicate_index_is_position :
    (∀ (outputFolder id : List Char) (k : Nat) (imgs : List Image) (i : Nat),
        i < imgs.length →
        (buildSavedNames outputFolder id k imgs).getD i []
          = outputFolder ++ "/aligned_images/".data ++ id ++ "_".data
              ++ Nat.toDigits 10 k ++ "_R".data ++ Nat.toDigits 10 (i + 1)
              ++ "_".data ++ Nat.toDigits 10 (imgs.getD i emptyImage).w
              ++ "x".data ++ Nat.toDigits 10 (imgs.getD i emptyImage).h
              ++ "_aligned.tif".data)
    ∧ (∀ (imgs : List Image) (c : Channel) (dU dL : ℚ) (x i : Nat),
        x < (imgs.headD emptyImage).w → i < imgs.length →
        (((profileRows imgs c dU dL).getD x rowDefault).vals).getD i 0
          = averageColor (imgs.getD i emptyImage) c x (imgs.headD emptyImage).h)
    ∧ (∀ (decode : List Char → Option Image) (blur : Image → Image)
        (filenames : List (List Char)) (outputFolder id : List Char) (k : Nat)
        (dU dL : ℚ) (c : Channel) (blurRadius : Nat),
        (loadGroup decode blur blurRadius filenames id k).length = 3 →
        processRPMImages decode blur filenames outputFolder id k dU dL c blurRadius
          = some ⟨buildSavedNames outputFolder id k
                   (alignImageHeights (alignImageWidths
                     (loadGroup decode blur blurRadius filenames id k))),
                 outputFolder ++ "/".data ++ id ++ "_".data ++ Nat.toDigits 10 k
                   ++ "_".data ++ [channelChar c] ++ "ness.csv".data,
                 csvHeader c,
                 profileRows (alignImageHeights (alignImageWidths
                   (loadGroup decode blur blurRadius filenames id k))) c dU dL⟩) := by
  refine ⟨?_, ?_, ?_⟩
  · intro outputFolder id k imgs i hi
    unfold buildSavedNames
    have hlen : i < (imgs.enum.map
        (fun p => savedImageName outputFolder id k p.1 p.2)).length := by
      simpa [List.enum_length] using hi
    rw [List.getD_eq_getElem _ _ hlen, List.getElem_map, List.getElem_enum,
        List.getD_eq_getElem imgs emptyImage hi]
    rfl
  · intro imgs c dU dL x i hx hi
    rw [profileRows_getD imgs c dU dL x hx]
    show (imgs.map fun img =>
        averageColor img c x ((imgs.headD emptyImage).h)).getD i 0 = _
    have hlen : i < (imgs.map fun img =>
        averageColor img c x ((imgs.headD emptyImage).h)).length := by
      simpa using hi
    rw [List.getD_eq_getElem _ _ hlen, List.getElem_map,
        List.getD_eq_getElem imgs emptyImage hi]
  · intro decode blur filenames outputFolder id k dU dL c blurRadius hlen
    unfold processRPMImages
    rw [if_pos hlen]

def imgsMixed : List Image := [mkImage 2 2, mkImage 3 3, mkImage 2 3]

/-- Witness for C10: the image at position 1 (the second loaded image, of
size 3×3) is saved as replicate `R2` with its own dimensions, its CSV value
is the second per-replicate field, and a fully-decoding group produces its
output. -/
theorem claim10_replicate_index_is_position_witness :
    (buildSavedNames [] "W".data 7 imgsMixed).getD 1 []
      = "/aligned_images/W_7_R2_3x3_aligned.tif".data
    ∧ (((profileRows imgsMixed Channel.R 1 0).getD 0 rowDefault).vals).getD 1 0
      = averageColor (imgsMixed.getD 1 emptyImage) Channel.R 0
          (imgsMixed.headD emptyImage).h
    ∧ (processRPMImages (fun _ => some (mkImage 2 2)) (fun img => img)
        fnamesThree [] "W".data 5 10 0 Channel.B 0).isSome := by
  refine ⟨?_, ?_, ?_⟩
  · have h := claim10_replicate_index_is_position.1 [] "W".data 7 imgsMixed 1
      (by decide)
    rw [h]
    decide
  · exact claim10_replicate_index_is_position.2.1 imgsMixed Channel.R 1 0 0 1
      (by decide) (by decide)
  · have h := claim10_replicate_index_is_position.2.2
      (fun _ => some (mkImage 2 2)) (fun img => img) fnamesThree [] "W".data 5
      10 0 Channel.B 0 (by decide)
    rw [h]
    rfl

end DyeCSV
